import Mathlib

/- Verification development for the Filex albert extension (filex.py).

   The file shallowly embeds the module's pure logic: the `IndexItem`
   constructor (its non-Gio fallback branch, which is the in-repository
   entry resolver; the Gio branch delegates to the external Gio library),
   the query engine (`find_results`, `find_results_dir`, `handle_query`),
   the scanner (`scan`, `update_index`) with the fallible resolver kept
   abstract, and the config store (`read_conf`).  Filesystem state is
   passed explicitly as a record of query functions; Python stdlib string
   and path helpers used by the source are modelled below on Unicode
   code points (Char).  Logging calls (albert.info) have no observable
   effect on results and are dropped; icon resolution goes through the
   external albert.iconLookup capability and is likewise outside the
   embedded state. -/

namespace Filex

/-! Models of the Python string and os.path primitives the source calls. -/

/-- Whitespace stripped by Python str.strip (ASCII subset; the queries and
configuration strings in scope are ASCII). -/
def pyWhitespace (c : Char) : Bool :=
  c = ' ' || c = '\t' || c = '\n' || c = '\r' || c = '\x0b' || c = '\x0c'

/-- Python str.strip(): remove leading and trailing whitespace. -/
def pyStrip (s : String) : String :=
  ⟨((s.data.dropWhile pyWhitespace).reverse.dropWhile pyWhitespace).reverse⟩

/-- Python str.lower() (ASCII case mapping, via Char.toLower). -/
def pyLower (s : String) : String :=
  ⟨s.data.map Char.toLower⟩

/-- Python str.upper on one char / str.capitalize support. -/
def pyCapitalize (s : String) : String :=
  match s.data with
  | [] => ""
  | c :: rest => ⟨Char.toUpper c :: rest.map Char.toLower⟩

/-- Python str.rstrip(chars): remove trailing characters in the set. -/
def pyRstrip (s : String) (set : List Char) : String :=
  ⟨(s.data.reverse.dropWhile (fun c => set.contains c)).reverse⟩

/-- Helper for Python str.find: index of the first occurrence of `needle`
in `hay`, or none (Python returns -1; the source only tests `pos < 0`). -/
def findSub : List Char → List Char → Option Nat
  | hay, needle =>
    if needle.isPrefixOf hay then some 0
    else
      match hay with
      | [] => none
      | _ :: t => (findSub t needle).map (· + 1)

/-- Python str.find on strings. -/
def pyFind (s sub : String) : Option Nat :=
  findSub s.data sub.data

/-- Python str.startswith. -/
def startsWithStr (s pre : String) : Bool :=
  pre.data.isPrefixOf s.data

/-- Python str.endswith. -/
def endsWithStr (s suf : String) : Bool :=
  suf.data.isSuffixOf s.data

/-- os.path.split (posixpath): split at the last slash; the head keeps no
trailing slashes unless it is entirely slashes. -/
def osSplit (p : String) : String × String :=
  let cs := p.data
  let tail := (cs.reverse.takeWhile (fun c => c ≠ '/')).reverse
  let head := cs.take (cs.length - tail.length)
  let head2 := if head.isEmpty || head.all (fun c => c = '/') then head
    else (head.reverse.dropWhile (fun c => c = '/')).reverse
  (⟨head2⟩, ⟨tail⟩)

/-- os.path.basename (posixpath): everything after the last slash. -/
def pyBasename (p : String) : String :=
  ⟨(p.data.reverse.takeWhile (fun c => c ≠ '/')).reverse⟩

/-- os.path.join (posixpath) for two components, as used for
os.scandir entry.path. -/
def osJoin (a b : String) : String :=
  if startsWithStr b "/" then b
  else if a = "" || endsWithStr a "/" then a ++ b
  else a ++ "/" ++ b

/-- os.path.expanduser, parameterized by the home directory: a leading
bare tilde expands to home; a tilde naming another user would consult the
password database (external), and an unknown user is returned unchanged,
which is the case we model. -/
def expanduser (home path : String) : String :=
  match path.data with
  | '~' :: rest =>
    if rest.isEmpty then home
    else if rest.head? = some '/' then
      let res := (pyRstrip home ['/']) ++ (⟨rest⟩ : String)
      if res = "" then "/" else res
    else path
  | _ => path

/-- Characters urllib.parse.quote leaves unescaped: the always-safe set
(ASCII letters, digits, _.-~) plus the default safe character slash,
phrased on code points. -/
def quoteSafe (c : Char) : Bool :=
  let n := c.toNat
  ((65 ≤ n && n ≤ 90) || (97 ≤ n && n ≤ 122) || (48 ≤ n && n ≤ 57)
    || n = 95 || n = 46 || n = 45 || n = 126 || n = 47)

/-- Uppercase hex digit, for percent escapes. -/
def hexDigit (n : Nat) : Char :=
  if n < 10 then Char.ofNat (48 + n) else Char.ofNat (55 + n)

/-- UTF-8 bytes of one code point (as Nats). -/
def utf8EncodeChar (c : Char) : List Nat :=
  let n := c.toNat
  if n < 0x80 then [n]
  else if n < 0x800 then [0xC0 + n / 64, 0x80 + n % 64]
  else if n < 0x10000 then
    [0xE0 + n / 4096, 0x80 + (n / 64) % 64, 0x80 + n % 64]
  else
    [0xF0 + n / 262144, 0x80 + (n / 4096) % 64, 0x80 + (n / 64) % 64,
      0x80 + n % 64]

/-- Percent-escapes of a byte sequence, with uppercase hex, prepended to a
tail. -/
def escBytes (bs : List Nat) (tail : List Char) : List Char :=
  bs.foldr (fun b acc => '%' :: hexDigit (b / 16) :: hexDigit (b % 16) :: acc)
    tail

/-- urllib.parse.quote: percent-escape every UTF-8 byte of every unsafe
character, with uppercase hex. -/
def quoteChar (c : Char) : List Char :=
  if quoteSafe c then [c]
  else escBytes (utf8EncodeChar c) []

/-- urllib.parse.quote on a character list. -/
def quoteData (l : List Char) : List Char :=
  l.foldr (fun c acc => quoteChar c ++ acc) []

/-- urllib.parse.quote on a string. -/
def quote (s : String) : String :=
  ⟨quoteData s.data⟩

/-- Value of one hex digit, if any. -/
def hexVal : Char → Option Nat
  | c =>
    let n := c.toNat
    if 48 ≤ n && n ≤ 57 then some (n - 48)
    else if 65 ≤ n && n ≤ 70 then some (n - 55)
    else if 97 ≤ n && n ≤ 102 then some (n - 87)
    else none

/-- First phase of urllib.parse.unquote: turn the character stream into the
byte stream it denotes, decoding well-formed %XX escapes and re-encoding
every other character as its UTF-8 bytes (a percent sign not followed by
two hex digits stays literal, as in Python).  Recursion is on a fuel
argument for structural termination; fuel equal to the list length always
suffices (every recursive call strictly shortens the list). -/
def percentDecodeBytesF : Nat → List Char → List Nat
  | _, [] => []
  | 0, _ :: _ => []
  | fuel + 1, c :: rest =>
    if c = '%' then
      match rest with
      | a :: b :: r2 =>
        match hexVal a, hexVal b with
        | some x, some y => (16 * x + y) :: percentDecodeBytesF fuel r2
        | _, _ => utf8EncodeChar '%' ++ percentDecodeBytesF fuel rest
      | _ => utf8EncodeChar '%' ++ percentDecodeBytesF fuel rest
    else utf8EncodeChar c ++ percentDecodeBytesF fuel rest

/-- First phase of unquote at adequate fuel. -/
def percentDecodeBytes (l : List Char) : List Nat :=
  percentDecodeBytesF l.length l

/-- The Unicode replacement character, used by unquote's errors=replace. -/
def replChar : Char := Char.ofNat 0xFFFD

/-- Is a byte a UTF-8 continuation byte. -/
def isCont (b : Nat) : Bool := 0x80 ≤ b && b < 0xC0

/-- Second phase of urllib.parse.unquote: UTF-8-decode the byte stream,
substituting the replacement character for ill-formed sequences (Python
errors=replace; the exact treatment of ill-formed multi-byte prefixes is
approximated — no claim in scope exercises ill-formed input).  Fuel-based
structural recursion as for percentDecodeBytesF. -/
def utf8DecodeReplaceF : Nat → List Nat → List Char
  | _, [] => []
  | 0, _ :: _ => []
  | fuel + 1, b :: rest =>
    if b < 0x80 then Char.ofNat b :: utf8DecodeReplaceF fuel rest
    else if b < 0xC0 then replChar :: utf8DecodeReplaceF fuel rest
    else if b < 0xE0 then
      match rest with
      | b2 :: r2 =>
        if isCont b2 then
          Char.ofNat ((b - 0xC0) * 64 + (b2 - 0x80)) ::
            utf8DecodeReplaceF fuel r2
        else replChar :: utf8DecodeReplaceF fuel rest
      | [] => [replChar]
    else if b < 0xF0 then
      match rest with
      | b2 :: b3 :: r3 =>
        if isCont b2 && isCont b3 then
          Char.ofNat ((b - 0xE0) * 4096 + (b2 - 0x80) * 64 + (b3 - 0x80)) ::
            utf8DecodeReplaceF fuel r3
        else replChar :: utf8DecodeReplaceF fuel rest
      | _ => [replChar]
    else
      match rest with
      | b2 :: b3 :: b4 :: r4 =>
        if isCont b2 && isCont b3 && isCont b4 then
          Char.ofNat ((b - 0xF0) * 262144 + (b2 - 0x80) * 4096 +
            (b3 - 0x80) * 64 + (b4 - 0x80)) :: utf8DecodeReplaceF fuel r4
        else replChar :: utf8DecodeReplaceF fuel rest
      | _ => [replChar]

/-- UTF-8 decoding at adequate fuel. -/
def utf8DecodeReplace (l : List Nat) : List Char :=
  utf8DecodeReplaceF l.length l

/-- urllib.parse.unquote (encoding utf-8, errors replace). -/
def unquote (s : String) : String :=
  ⟨utf8DecodeReplace (percentDecodeBytes s.data)⟩

/-- Characters allowed in a URL scheme by urllib.parse. -/
def schemeChar (c : Char) : Bool :=
  let n := c.toNat
  ((65 ≤ n && n ≤ 90) || (97 ≤ n && n ≤ 122) || (48 ≤ n && n ≤ 57)
    || n = 43 || n = 45 || n = 46)

/-- Is an ASCII letter (urlsplit requires the first scheme char to be one). -/
def isAsciiAlpha (c : Char) : Bool :=
  (65 ≤ c.toNat && c.toNat ≤ 90) || (97 ≤ c.toNat && c.toNat ≤ 122)

/-- Scheme stripping of urllib.parse.urlsplit: when a colon at a positive
index closes a well-formed scheme (ASCII letter first, scheme characters
throughout), drop the scheme and the colon. -/
def splitScheme (cs : List Char) : List Char :=
  match cs.findIdx? (fun c => c = ':') with
  | some i =>
    if 0 < i && (match cs.head? with
        | some c0 => isAsciiAlpha c0
        | none => false)
        && (cs.take i).all schemeChar
    then cs.drop (i + 1) else cs
  | none => cs

/-- Netloc stripping of urllib.parse.urlsplit: after a leading //, the
netloc runs to the first slash, question mark or hash; the remainder
(delimiter included) is kept. -/
def splitNetloc (rest : List Char) : List Char :=
  if rest.take 2 = ['/', '/'] then
    (rest.drop 2).dropWhile (fun c => ¬ (c = '/' || c = '?' || c = '#'))
  else rest

/-- The path component produced by urllib.parse.urlsplit (component [2]):
strip a well-formed scheme, then the //netloc part, then cut the
remainder at the first question mark or hash. -/
def urlsplitPath (u : String) : String :=
  ⟨(splitNetloc (splitScheme u.data)).takeWhile (fun c => ¬ (c = '?' || c = '#'))⟩

/-- Python string comparison: strict lexicographic order on code points
(a proper prefix is smaller). -/
def lexLtB : List Char → List Char → Bool
  | [], [] => false
  | [], _ :: _ => true
  | _ :: _, [] => false
  | a :: as, b :: bs =>
    if a.toNat < b.toNat then true
    else if b.toNat < a.toNat then false
    else lexLtB as bs

/-! The filesystem, as the record of queries the source performs on it. -/

/-- Filesystem state: os.path.isdir, os.path.exists, os.scandir (child
names in discovery order, or a raised OSError), and glob.glob expansion
of one pattern. -/
structure FS where
  isdir : String → Bool
  pathExists : String → Bool
  scandir : String → Except Unit (List String)
  glob : String → List String

/-! The entry model. -/

/-- An index entry: canonical uri, local path (empty for virtual
locations), display title.  Icon resolution goes through the external
albert.iconLookup capability and is not part of the embedded state. -/
structure IndexItem where
  uri : String
  path : String
  title : String
deriving DecidableEq, Repr

/-- IndexItem.__init__, non-Gio fallback branch (the Gio branch hands the
uri to the external Gio resolver; see scan/update_index where that
resolver is kept abstract).  An existing path is first turned into a
percent-quoted file:// uri; a uri ending in :/// is a virtual location
titled by capitalizing its scheme; otherwise the title is the basename of
the uri's path component. -/
def mkIndexItem (fs : FS) (path_or_uri : String) : IndexItem :=
  let pu := if fs.pathExists path_or_uri
    then "file://" ++ quote path_or_uri else path_or_uri
  if endsWithStr pu ":///" then
    { uri := pu, path := "", title := pyCapitalize (pyRstrip pu [':', '/']) }
  else
    let path := urlsplitPath (unquote pu)
    { uri := pu, path := path, title := pyBasename (pyRstrip path ['/']) }

/-- The result record handed to albert (IndexItem.to_albert_item): id,
text, subtext, completion and the url of the single Open action.  The
icon field is resolved through the external icon capability and omitted. -/
structure AlbertItem where
  id : String
  text : String
  subtext : String
  completion : String
  actionUrl : String
deriving DecidableEq, Repr

/-- IndexItem.completion: the path with a trailing separator when it is a
directory, else the path, else the title. -/
def completionOf (fs : FS) (it : IndexItem) : String :=
  if it.path ≠ "" then
    (if fs.isdir it.path then it.path ++ "/" else it.path)
  else it.title

/-- IndexItem.to_albert_item. -/
def to_albert_item (fs : FS) (it : IndexItem) : AlbertItem :=
  { id := it.uri
    text := it.title
    subtext := if it.path ≠ "" then it.path else it.uri
    completion := completionOf fs it
    actionUrl := it.uri }

/-! The query engine. -/

/-- A query as handed in by albert: the query string and the isValid
cancellation flag, modelled as the stream of values the per-candidate
polls observe (poll n is the check made before processing candidate n). -/
structure Query where
  string : String
  valid : Nat → Bool

/-- The configuration values the query engine reads. -/
structure Conf where
  min_length : Int
  paths : List String

/-- The (pos, title, result) triples find_results yields in name mode:
walk the index, poll isValid before each entry and stop on cancellation,
skip entries whose lowered title does not contain the query. -/
def nameTriples (fs : FS) (valid : Nat → Bool) (q : String) :
    List IndexItem → Nat → List (Nat × String × AlbertItem)
  | [], _ => []
  | item :: rest, n =>
    if !(valid n) then []
    else
      match pyFind (pyLower item.title) q with
      | none => nameTriples fs valid q rest (n + 1)
      | some pos =>
        (pos, item.title, to_albert_item fs item) ::
          nameTriples fs valid q rest (n + 1)

/-- The triples find_results_dir yields for the scandir children: poll
isValid before each entry, skip names whose lowered form does not contain
the lowered trimmed tail, and build an IndexItem from the joined path. -/
def dirTriples (fs : FS) (valid : Nat → Bool) (head q : String) :
    List String → Nat → List (Nat × String × AlbertItem)
  | [], _ => []
  | name :: rest, n =>
    if !(valid n) then []
    else
      match pyFind (pyLower name) q with
      | none => dirTriples fs valid head q rest (n + 1)
      | some pos =>
        let item := mkIndexItem fs (osJoin head name)
        (pos, item.title, to_albert_item fs item) ::
          dirTriples fs valid head q rest (n + 1)

/-- The head listed and tail searched by find_results_dir: the whole query
string with an empty tail when it is itself an existing directory, else
the os.path.split of the query string. -/
def dirHeadTail (fs : FS) (s : String) : String × String :=
  if fs.isdir s then (s, "") else osSplit s

/-- Extension.find_results_dir: list the head directory and match the
trimmed lowered tail against the child names; a scandir failure
propagates (error). -/
def find_results_dir (fs : FS) (query : Query) :
    Except Unit (List (Nat × String × AlbertItem)) :=
  let ht := dirHeadTail fs query.string
  let q := pyLower (pyStrip ht.2)
  (fs.scandir ht.1).map (fun names => dirTriples fs query.valid ht.1 q names 0)

/-- Extension.find_results: directory mode when the head of the query
string names an existing directory, else name mode over the index. -/
def find_results (fs : FS) (index : List IndexItem) (query : Query) :
    Except Unit (List (Nat × String × AlbertItem)) :=
  if fs.isdir (osSplit query.string).1 then find_results_dir fs query
  else .ok (nameTriples fs query.valid (pyLower (pyStrip query.string)) index 0)

/-- Python ascending sort key order on the (pos, title) prefix of the
yielded triples: pos first, then the title compared as Python compares
strings. -/
def rankLeB (a b : Nat × String × AlbertItem) : Bool :=
  if a.1 < b.1 then true
  else if b.1 < a.1 then false
  else !(lexLtB b.2.1.data a.2.1.data)

/-- rankLeB as a relation, for List.insertionSort. -/
def rankLE (a b : Nat × String × AlbertItem) : Prop := rankLeB a b = true

instance : DecidableRel rankLE := fun _ _ => inferInstanceAs (Decidable (_ = true))

/-- Extension.handle_query: gate on the trimmed lowered length, collect the
find_results triples, sort them stably ascending by (pos, title) (Python
list.sort is a stable sort; insertionSort with the same total preorder
computes the identical list) and keep the result records. -/
def handle_query (fs : FS) (conf : Conf) (index : List IndexItem)
    (query : Query) : Except Unit (List AlbertItem) :=
  let q := pyLower (pyStrip query.string)
  if (q.length : Int) < conf.min_length then .ok []
  else
    (find_results fs index query).map
      (fun rs => (List.insertionSort rankLE rs).map (fun t => t.2.2))

/-! The scanner and index update.  Extension.scan builds an IndexItem for
every glob match; with Gio present that construction queries file
metadata and raises on an unresolvable path, and nothing in scan or
update_index catches it, so the resolver is abstracted as a fallible
function and a failure aborts the whole update (Option, none = raised). -/

/-- The paths scan walks: every configured pattern, tilde-expanded then
glob-expanded, in order. -/
def scanPaths (fs : FS) (home : String) (paths : List String) : List String :=
  paths.flatMap (fun pat => fs.glob (expanduser home pat))

/-- Resolve every path in order; the first failure aborts (an exception
from the entry resolver propagates out of the scan generator). -/
def resolveAll (resolve : String → Option IndexItem) :
    List String → Option (List IndexItem)
  | [] => some []
  | p :: ps =>
    match resolve p with
    | none => none
    | some it => (resolveAll resolve ps).map (fun l => it :: l)

/-- Extension.scan materialized (update_index runs list(self.scan())). -/
def scan (resolve : String → Option IndexItem) (fs : FS) (home : String)
    (paths : List String) : Option (List IndexItem) :=
  resolveAll resolve (scanPaths fs home paths)

/-- Extension.update_index: the scanned entries followed by the three fixed
virtual entries, in order; the new index is published only when every
construction succeeded. -/
def update_index (resolve : String → Option IndexItem) (fs : FS)
    (home : String) (paths : List String) : Option (List IndexItem) :=
  match scan resolve fs home paths with
  | none => none
  | some entries =>
    match resolve "computer:///", resolve "recent:///", resolve "trash:///" with
    | some c, some r, some t => some (entries ++ [c, r, t])
    | _, _, _ => none

/-! The config store.  A config file is a parsed JSON object; json.load
never yields duplicate keys and preserves the file's key order, so a dict
is an association list with distinct keys.  write_json serializes with
sorted keys (json.dumps sort_keys), 2-space indentation, UTF-8 and a
trailing newline; of these only the key order is observable through a
reload, so the stored file is modelled as the key-sorted dict.  (dumps
also sorts the keys of nested objects; no modelled operation looks inside
a nested value, so top-level sorting is a faithful rendering.) -/

/-- A JSON value (floats are out of scope: the configuration holds
integers, strings, arrays and objects). -/
inductive JVal where
  | jnum (n : Int)
  | jstr (s : String)
  | jbool (b : Bool)
  | jnull
  | jarr (l : List JVal)
  | jobj (d : List (String × JVal))

mutual
/-- Structural equality of JSON values (Python == on the values json.load
produces; key order inside a nested object is already normalized by the
serializer, so positional comparison is faithful there). -/
def jvalBeq : JVal → JVal → Bool
  | .jnum a, .jnum b => a == b
  | .jstr a, .jstr b => a == b
  | .jbool a, .jbool b => a == b
  | .jnull, .jnull => true
  | .jarr a, .jarr b => jvalListBeq a b
  | .jobj a, .jobj b => jvalObjBeq a b
  | _, _ => false
def jvalListBeq : List JVal → List JVal → Bool
  | [], [] => true
  | a :: as, b :: bs => jvalBeq a b && jvalListBeq as bs
  | _, _ => false
def jvalObjBeq : List (String × JVal) → List (String × JVal) → Bool
  | [], [] => true
  | (k1, v1) :: as, (k2, v2) :: bs =>
    k1 == k2 && jvalBeq v1 v2 && jvalObjBeq as bs
  | _, _ => false
end

/-- Equality of optional JSON values. -/
def optJValBeq : Option JVal → Option JVal → Bool
  | some a, some b => jvalBeq a b
  | none, none => true
  | _, _ => false

/-- A parsed JSON object. -/
abbrev PyDict := List (String × JVal)

/-- dict.setdefault(k, v): insert the default only when the key is absent
(CPython keeps insertion order, so the new key goes last). -/
def setdefault (d : PyDict) (k : String) (v : JVal) : PyDict :=
  if (List.lookup k d).isSome then d else d ++ [(k, v)]

/-- Python dict equality (==): same keys with equal values, irrespective
of insertion order. -/
def pyDictEq (d1 d2 : PyDict) : Bool :=
  (d1.map Prod.fst ++ d2.map Prod.fst).all
    (fun k => optJValBeq (List.lookup k d1) (List.lookup k d2))

/-- Key order of the file written by write_json (json.dumps sort_keys):
keys ascending in Python string order. -/
def sortKeys (d : PyDict) : PyDict :=
  List.insertionSort (fun a b : String × JVal => lexLtB b.1.data a.1.data = false) d

instance : DecidableRel (fun a b : String × JVal => lexLtB b.1.data a.1.data = false) :=
  fun _ _ => inferInstanceAs (Decidable (_ = false))

/-- The outcome of Extension.read_conf: the returned config, whether the
merged config was written back, and the config file contents afterwards. -/
structure LoadResult where
  conf : PyDict
  wrote : Bool
  file : Option PyDict

/-- The three setdefault lines of Extension.read_conf: fill in min_length,
paths (the tilde-expanded default pattern) and scan_interval where
missing, leaving present keys untouched. -/
def mergedConf (home : String) (d : PyDict) : PyDict :=
  setdefault
    (setdefault (setdefault d "min_length" (.jnum 1))
      "paths" (.jarr [.jstr (expanduser home "~/*")]))
    "scan_interval" (.jnum 900)

/-- Extension.read_conf over the file state (none = no config file, in
which case read_json returns the {} default): fill in the three defaults
with setdefault and write the merged dict back precisely when it differs
(Python dict !=) from what was read. -/
def read_conf (home : String) (file : Option PyDict) : LoadResult :=
  let orig := file.getD []
  let conf := mergedConf home orig
  if pyDictEq conf orig then { conf := conf, wrote := false, file := file }
  else { conf := conf, wrote := true, file := some (sortKeys conf) }

/-! Spec-side descriptions, for refinement comparisons.  These follow the
specification's wording (filter the matching entries, key each by the
match position, sort ascending by (pos, title)) rather than the source's
generator-plus-sort organization. -/

/-- Order on result records by display text, in Python string order. -/
def albertLeB (x y : AlbertItem) : Bool := !(lexLtB y.text.data x.text.data)

/-- albertLeB as a relation. -/
def albertLE (x y : AlbertItem) : Prop := albertLeB x y = true

instance : DecidableRel albertLE := fun _ _ => inferInstanceAs (Decidable (_ = true))

/-- The spec's name-mode result: entries of the snapshot whose lowered
title contains the query, each keyed by the offset of the first match,
sorted ascending by (pos, title), projected to result records. -/
def specNameMode (fs : FS) (index : List IndexItem) (q : String) :
    List AlbertItem :=
  (List.insertionSort rankLE
    ((index.filter (fun it => (pyFind (pyLower it.title) q).isSome)).map
      (fun it => ((pyFind (pyLower it.title) q).getD 0, it.title,
        to_albert_item fs it)))).map (fun t => t.2.2)

/-- The path-mode analogue over the listed child names: children whose
lowered name contains the tail, keyed by match offset, sorted ascending by
(pos, title) exactly as in name mode. -/
def specPathMode (fs : FS) (head q : String) (names : List String) :
    List AlbertItem :=
  (List.insertionSort rankLE
    ((names.filter (fun name => (pyFind (pyLower name) q).isSome)).map
      (fun name => ((pyFind (pyLower name) q).getD 0,
        (mkIndexItem fs (osJoin head name)).title,
        to_albert_item fs (mkIndexItem fs (osJoin head name)))))).map
    (fun t => t.2.2)

/-! Concrete fixtures used by witnesses and counterexamples. -/

/-- A filesystem with nothing on it. -/
def fsEmpty : FS :=
  { isdir := fun _ => false
    pathExists := fun _ => false
    scandir := fun _ => .error ()
    glob := fun _ => [] }

/-- A query whose liveness flag stays true. -/
def liveQuery (s : String) : Query := { string := s, valid := fun _ => true }

/-- Fixture for the name-mode ranking example: an index with titles
Abacus, Cabinet, Banana. -/
def idxC1 : List IndexItem :=
  [ { uri := "file:///x/Abacus", path := "/x/Abacus", title := "Abacus" }
  , { uri := "file:///x/Cabinet", path := "/x/Cabinet", title := "Cabinet" }
  , { uri := "file:///x/Banana", path := "/x/Banana", title := "Banana" } ]

/-- Fixture: a filesystem with directory /d whose listing fails (e.g. no
read permission, so os.scandir raises). -/
def fsC2 : FS :=
  { isdir := fun s => s = "/d"
    pathExists := fun _ => false
    scandir := fun _ => .error ()
    glob := fun _ => [] }

/-- Fixture: a resolver that fails on path p2 only (a Gio query_info
raising for, say, a broken symlink) and succeeds elsewhere. -/
def resolveC3 : String → Option IndexItem :=
  fun s => if s = "p2" then none else some { uri := s, path := s, title := s }

/-- Fixture: a filesystem whose glob expands the pattern pat to p1, p2. -/
def fsC3 : FS :=
  { isdir := fun _ => false
    pathExists := fun _ => false
    scandir := fun _ => .error ()
    glob := fun pat => if pat = "pat" then ["p1", "p2"] else [] }

/-- Fixture: a resolver that always succeeds, for the virtual-entries
witness. -/
def resolveC5 : String → Option IndexItem :=
  fun s => some { uri := s, path := "", title := s }

/-- Fixture: a filesystem with directory /d containing children b and a
(discovery order b first). -/
def fsC6 : FS :=
  { isdir := fun s => s = "/d" || s = "/d/"
    pathExists := fun s => s = "/d/b" || s = "/d/a" || s = "/d" || s = "/d/"
    scandir := fun s => if s = "/d/" then .ok ["b", "a"] else .error ()
    glob := fun _ => [] }

mutual
theorem jvalBeq_refl : ∀ v : JVal, jvalBeq v v = true
  | .jnum a => by simp [jvalBeq]
  | .jstr a => by simp [jvalBeq]
  | .jbool a => by simp [jvalBeq]
  | .jnull => rfl
  | .jarr l => by
    rw [jvalBeq]
    exact jvalListBeq_refl l
  | .jobj d => by
    rw [jvalBeq]
    exact jvalObjBeq_refl d
theorem jvalListBeq_refl : ∀ l : List JVal, jvalListBeq l l = true
  | [] => rfl
  | a :: as => by
    rw [jvalListBeq]
    simp [jvalBeq_refl a, jvalListBeq_refl as]
theorem jvalObjBeq_refl : ∀ d : List (String × JVal), jvalObjBeq d d = true
  | [] => rfl
  | (k, v) :: as => by
    rw [jvalObjBeq]
    simp [jvalBeq_refl v, jvalObjBeq_refl as]
end

theorem optJValBeq_refl (o : Option JVal) : optJValBeq o o = true := by
  cases o with
  | none => rfl
  | some v => simpa [optJValBeq] using jvalBeq_refl v

/-- The cons unfolding of lexLtB. -/
theorem lexLtB_cons (a b : Char) (as bs : List Char) :
    lexLtB (a :: as) (b :: bs) =
      (if a.toNat < b.toNat then true
        else if b.toNat < a.toNat then false else lexLtB as bs) := rfl

/-- lexLtB is irreflexive. -/
theorem lexLtB_irrefl : ∀ l : List Char, lexLtB l l = false
  | [] => rfl
  | a :: as => by
    rw [lexLtB_cons, if_neg (lt_irrefl _), if_neg (lt_irrefl _)]
    exact lexLtB_irrefl as

/-- lexLtB is asymmetric. -/
theorem lexLtB_asymm : ∀ (l m : List Char),
    lexLtB l m = true → lexLtB m l = false
  | [], [], h => by exact absurd h (by simp [lexLtB])
  | [], _ :: _, _ => rfl
  | _ :: _, [], h => by exact absurd h (by simp [lexLtB])
  | a :: as, b :: bs, h => by
    rw [lexLtB_cons] at h
    rw [lexLtB_cons]
    by_cases h1 : a.toNat < b.toNat
    · rw [if_neg (by omega : ¬ b.toNat < a.toNat), if_pos h1]
    · rw [if_neg h1] at h
      by_cases h2 : b.toNat < a.toNat
      · rw [if_pos h2] at h
        exact absurd h (by simp)
      · rw [if_neg h2] at h
        rw [if_neg h2, if_neg h1]
        exact lexLtB_asymm as bs h

/-- Negated lexLtB (the order's reflexive closure) is transitive. -/
theorem lexLtB_notLt_trans : ∀ (a b c : List Char),
    lexLtB b a = false → lexLtB c b = false → lexLtB c a = false
  | [], [], [] , _, _ => rfl
  | [], _, _ :: _, _, _ => rfl
  | [], _ :: _, [], _, h2 => by exact absurd h2 (by simp [lexLtB])
  | _ :: _, [], [], h1, _ => by exact absurd h1 (by simp [lexLtB])
  | _ :: _, _ :: _, [], _, h2 => by exact absurd h2 (by simp [lexLtB])
  | _ :: _, [], _ :: _, h1, _ => by exact absurd h1 (by simp [lexLtB])
  | a :: as, b :: bs, c :: cs, h1, h2 => by
    rw [lexLtB_cons] at h1 h2
    rw [lexLtB_cons]
    by_cases hba : b.toNat < a.toNat
    · rw [if_pos hba] at h1
      exact absurd h1 (by simp)
    · rw [if_neg hba] at h1
      by_cases hcb : c.toNat < b.toNat
      · rw [if_pos hcb] at h2
        exact absurd h2 (by simp)
      · rw [if_neg hcb] at h2
        by_cases hca : c.toNat < a.toNat
        · omega
        · rw [if_neg hca]
          by_cases hac : a.toNat < c.toNat
          · rw [if_pos hac]
          · rw [if_neg hac]
            have hab : ¬ a.toNat < b.toNat := by omega
            have hbc : ¬ b.toNat < c.toNat := by omega
            rw [if_neg hab] at h1
            rw [if_neg hbc] at h2
            exact lexLtB_notLt_trans as bs cs h1 h2

/-- Unfolded meaning of the Python sort-key order. -/
theorem rankLE_iff (a b : ℕ × String × AlbertItem) :
    rankLE a b ↔
      (a.1 < b.1 ∨ (a.1 = b.1 ∧ lexLtB b.2.1.data a.2.1.data = false)) := by
  unfold rankLE rankLeB
  by_cases h1 : a.1 < b.1
  · simp [h1]
  · by_cases h2 : b.1 < a.1
    · rw [if_neg h1, if_pos h2]
      simp
      omega
    · rw [if_neg h1, if_neg h2]
      have : a.1 = b.1 := by omega
      simp [this]

instance : IsTotal (ℕ × String × AlbertItem) rankLE where
  total a b := by
    rw [rankLE_iff a b, rankLE_iff b a]
    by_cases h1 : a.1 < b.1
    · exact Or.inl (Or.inl h1)
    · by_cases h2 : b.1 < a.1
      · exact Or.inr (Or.inl h2)
      · have he : a.1 = b.1 := by omega
        cases h3 : lexLtB b.2.1.data a.2.1.data
        · exact Or.inl (Or.inr ⟨he, rfl⟩)
        · exact Or.inr (Or.inr ⟨he.symm, lexLtB_asymm _ _ h3⟩)

instance : IsTrans (ℕ × String × AlbertItem) rankLE where
  trans a b c hab hbc := by
    rw [rankLE_iff] at hab hbc ⊢
    rcases hab with h | ⟨he1, hl1⟩
    · rcases hbc with h2 | ⟨he2, _⟩
      · exact Or.inl (lt_trans h h2)
      · exact Or.inl (he2 ▸ h)
    · rcases hbc with h2 | ⟨he2, hl2⟩
      · exact Or.inl (he1 ▸ h2)
      · exact Or.inr ⟨he1.trans he2, lexLtB_notLt_trans _ _ _ hl1 hl2⟩

/-- A generic bridge between the generator's filterMap shape and the
spec's filter-then-map shape. -/
theorem filterMap_eq_filter_map {α γ : Type} (pf : α → Option ℕ)
    (gf : α → ℕ → γ) :
    ∀ l : List α,
      l.filterMap (fun a => (pf a).map (gf a)) =
        (l.filter (fun a => (pf a).isSome)).map (fun a => gf a ((pf a).getD 0))
  | [] => rfl
  | a :: l => by
    cases h : pf a with
    | none =>
      simp only [List.filterMap_cons, List.filter_cons, h, Option.map_none',
        Option.isSome_none, Bool.false_eq_true, if_false]
      exact filterMap_eq_filter_map pf gf l
    | some v =>
      simp only [List.filterMap_cons, List.filter_cons, h, Option.map_some',
        Option.isSome_some, if_true, List.map_cons, Option.getD_some]
      exact congrArg _ (filterMap_eq_filter_map pf gf l)

/-- With a liveness flag that stays true, the name-mode generator yields
exactly the filterMap of the index. -/
theorem nameTriples_eq_filterMap (fs : FS) (valid : Nat → Bool) (q : String)
    (hv : ∀ n, valid n = true) :
    ∀ (l : List IndexItem) (n : ℕ),
      nameTriples fs valid q l n =
        l.filterMap (fun item => (pyFind (pyLower item.title) q).map
          (fun pos => (pos, item.title, to_albert_item fs item)))
  | [], _ => rfl
  | item :: rest, n => by
    rw [nameTriples, hv n]
    simp only [Bool.not_true, Bool.false_eq_true, if_false, List.filterMap_cons]
    cases h : pyFind (pyLower item.title) q with
    | none =>
      simp only [Option.map_none']
      exact nameTriples_eq_filterMap fs valid q hv rest (n + 1)
    | some pos =>
      simp only [Option.map_some']
      exact congrArg _ (nameTriples_eq_filterMap fs valid q hv rest (n + 1))

/-- With a liveness flag that stays true, the path-mode generator yields
exactly the filterMap of the child names. -/
theorem dirTriples_eq_filterMap (fs : FS) (valid : Nat → Bool)
    (head q : String) (hv : ∀ n, valid n = true) :
    ∀ (names : List String) (n : ℕ),
      dirTriples fs valid head q names n =
        names.filterMap (fun name => (pyFind (pyLower name) q).map
          (fun pos => (pos, (mkIndexItem fs (osJoin head name)).title,
            to_albert_item fs (mkIndexItem fs (osJoin head name)))))
  | [], _ => rfl
  | name :: rest, n => by
    rw [dirTriples, hv n]
    simp only [Bool.not_true, Bool.false_eq_true, if_false, List.filterMap_cons]
    cases h : pyFind (pyLower name) q with
    | none =>
      simp only [Option.map_none']
      exact dirTriples_eq_filterMap fs valid head q hv rest (n + 1)
    | some pos =>
      simp only [Option.map_some']
      exact congrArg _ (dirTriples_eq_filterMap fs valid head q hv rest (n + 1))

/-- A resolver failure on any scanned path makes resolveAll fail. -/
theorem resolveAll_eq_none (resolve : String → Option IndexItem) (p : String)
    (hfail : resolve p = none) :
    ∀ l : List String, p ∈ l → resolveAll resolve l = none
  | q :: l, hmem => by
    rcases List.mem_cons.mp hmem with rfl | hmem2
    · rw [resolveAll, hfail]
    · rw [resolveAll]
      cases resolve q with
      | none => rfl
      | some it => rw [resolveAll_eq_none resolve p hfail l hmem2]; rfl

/-- Python str.find always locates the empty needle at offset 0. -/
theorem pyFind_empty (s : String) : pyFind s "" = some 0 := by
  unfold pyFind
  rw [findSub.eq_def]
  cases s.data <;> simp [List.isPrefixOf]

/-- Mapping a function through orderedInsert, when the relation
corresponds along the function on the elements involved. -/
theorem orderedInsert_map {α β : Type} (r : α → α → Prop) (s : β → β → Prop)
    [DecidableRel r] [DecidableRel s] (f : α → β) (a : α) :
    ∀ l : List α, (∀ b ∈ l, (r a b ↔ s (f a) (f b))) →
      (List.orderedInsert r a l).map f = List.orderedInsert s (f a) (l.map f)
  | [], _ => rfl
  | b :: l, hcorr => by
    simp only [List.orderedInsert, List.map_cons]
    by_cases h : r a b
    · rw [if_pos h, if_pos ((hcorr b (List.mem_cons_self b l)).mp h)]
      simp
    · rw [if_neg h, if_neg (fun hs => h ((hcorr b (List.mem_cons_self b l)).mpr hs))]
      simp only [List.map_cons]
      rw [orderedInsert_map r s f a l
        (fun x hx => hcorr x (List.mem_cons_of_mem b hx))]

/-- Mapping a function through insertionSort, when the relation
corresponds along the function on the list's elements. -/
theorem insertionSort_map {α β : Type} (r : α → α → Prop) (s : β → β → Prop)
    [DecidableRel r] [DecidableRel s] (f : α → β) :
    ∀ l : List α, (∀ x ∈ l, ∀ y ∈ l, (r x y ↔ s (f x) (f y))) →
      (List.insertionSort r l).map f = List.insertionSort s (l.map f)
  | [], _ => rfl
  | a :: l, hcorr => by
    simp only [List.insertionSort, List.map_cons]
    rw [← insertionSort_map r s f l
      (fun x hx y hy => hcorr x (List.mem_cons_of_mem _ hx) y
        (List.mem_cons_of_mem _ hy))]
    exact orderedInsert_map r s f a (List.insertionSort r l)
      (fun b hb => hcorr a (List.mem_cons_self _ _) b
        (List.mem_cons_of_mem _ ((List.perm_insertionSort r l).mem_iff.mp hb)))

/-! Claim theorems. -/

/-- C4: for every config with min_length = m, every query whose trimmed,
lower-cased string has length less than m returns an empty result set
immediately, in both path mode and name mode (the gate precedes mode
selection, so the result is empty for every filesystem state). -/
theorem short_query_returns_empty (fs : FS) (conf : Conf)
    (index : List IndexItem) (query : Query)
    (hlen : ((pyLower (pyStrip query.string)).length : Int) < conf.min_length) :
    handle_query fs conf index query = .ok [] := by
  unfold handle_query
  rw [if_pos hlen]

theorem short_query_returns_empty_witness :
    (((pyLower (pyStrip "ab")).length : Int) < (3 : Int)) ∧
      handle_query fsC2 { min_length := 3, paths := [] } idxC1
        (liveQuery "ab") = .ok [] :=
  ⟨by decide,
    short_query_returns_empty fsC2 { min_length := 3, paths := [] } idxC1
      (liveQuery "ab") (by decide)⟩

/-- C2 counterexample: with directory /d present but unreadable (scandir
raises OSError), the path-mode query /d/x propagates the error out of
handle_query rather than returning fewer or zero results, so a query can
raise to the caller. -/
theorem path_mode_listing_error_raises :
    handle_query fsC2 { min_length := 1, paths := [] } []
      (liveQuery "/d/x") = .error () := rfl

/-- C2 amended: a query that does not enter path mode never raises: in
name mode handle_query always returns an ok result (an empty sequence is
a valid non-error result); only a path-mode directory-listing failure
propagates to the caller. -/
theorem name_mode_never_raises (fs : FS) (conf : Conf)
    (index : List IndexItem) (query : Query)
    (hmode : fs.isdir (osSplit query.string).1 = false) :
    ∃ out, handle_query fs conf index query = .ok out := by
  unfold handle_query
  by_cases h : ((pyLower (pyStrip query.string)).length : Int) < conf.min_length
  · exact ⟨[], by rw [if_pos h]⟩
  · rw [if_neg h]
    unfold find_results
    rw [hmode]
    simp only [Bool.false_eq_true, if_false, Except.map]
    exact ⟨_, rfl⟩

theorem name_mode_never_raises_witness :
    (fsC2.isdir (osSplit (liveQuery "abacus").string).1 = false) ∧
      ∃ out, handle_query fsC2 { min_length := 1, paths := [] } idxC1
        (liveQuery "abacus") = .ok out :=
  ⟨by decide,
    name_mode_never_raises fsC2 { min_length := 1, paths := [] } idxC1
      (liveQuery "abacus") (by decide)⟩

/-- C3 counterexample: a scan of the single pattern pat matching paths p1
and p2, where the resolver fails on p2 only (and succeeds on p1 and every
virtual uri), produces no index at all — the failure aborts the whole
update instead of skipping the one path, so the resolvable path p1 and
the virtual entries do not appear in any produced index. -/
theorem scan_resolution_failure_aborts :
    update_index resolveC3 fsC3 "/h" ["pat"] = none ∧ resolveC3 "p1" ≠ none :=
  ⟨rfl, by decide⟩

/-- C3 amended: a matched path that the resolver cannot stat/resolve makes
the exception propagate out of the scan, aborting the whole update: no
new index is produced (the previously published snapshot stays). -/
theorem update_index_fails_on_unresolvable
    (resolve : String → Option IndexItem) (fs : FS) (home : String)
    (paths : List String) (p : String)
    (hp : p ∈ scanPaths fs home paths) (hfail : resolve p = none) :
    update_index resolve fs home paths = none := by
  unfold update_index scan
  rw [resolveAll_eq_none resolve p hfail _ hp]

theorem update_index_fails_on_unresolvable_witness :
    ("p2" ∈ scanPaths fsC3 "/h" ["pat"]) ∧
      update_index resolveC3 fsC3 "/h" ["pat"] = none :=
  ⟨by decide,
    update_index_fails_on_unresolvable resolveC3 fsC3 "/h" ["pat"] "p2"
      (by decide) (by decide)⟩

/-- C5: after every successful index update the produced index ends with
the resolved computer, recent and trash virtual locations, in that fixed
order, for every configuration of scan patterns. -/
theorem virtual_entries_are_last_three
    (resolve : String → Option IndexItem) (fs : FS) (home : String)
    (paths : List String) (idx : List IndexItem) (c r t : IndexItem)
    (hc : resolve "computer:///" = some c)
    (hr : resolve "recent:///" = some r)
    (ht : resolve "trash:///" = some t)
    (h : update_index resolve fs home paths = some idx) :
    3 ≤ idx.length ∧ idx.drop (idx.length - 3) = [c, r, t] := by
  unfold update_index at h
  cases hscan : scan resolve fs home paths with
  | none => rw [hscan] at h; exact absurd h (by simp)
  | some entries =>
    rw [hscan, hc, hr, ht] at h
    have hidx : idx = entries ++ [c, r, t] := (Option.some.inj h).symm
    subst hidx
    constructor
    · simp
    · have hlen : (entries ++ [c, r, t]).length - 3 = entries.length := by
        simp
      rw [hlen, List.drop_left]

theorem virtual_entries_are_last_three_witness :
    3 ≤ ([ { uri := "computer:///", path := "", title := "computer:///" }
         , { uri := "recent:///", path := "", title := "recent:///" }
         , { uri := "trash:///", path := "", title := "trash:///" } ] :
          List IndexItem).length ∧
      ([ { uri := "computer:///", path := "", title := "computer:///" }
       , { uri := "recent:///", path := "", title := "recent:///" }
       , { uri := "trash:///", path := "", title := "trash:///" } ] :
          List IndexItem).drop (3 - 3) =
        [ { uri := "computer:///", path := "", title := "computer:///" }
        , { uri := "recent:///", path := "", title := "recent:///" }
        , { uri := "trash:///", path := "", title := "trash:///" } ] :=
  virtual_entries_are_last_three resolveC5 fsEmpty "/h" [] _ _ _ _
    rfl rfl rfl rfl

/-- C1: in name mode (the head of the query string is not an existing
directory) with a live query, the result is exactly the entries of the
index snapshot whose lower-cased title contains the trimmed lower-cased
query, sorted ascending by (pos, title); for the index with titles
Abacus, Cabinet, Banana and query a this returns Abacus, Banana, Cabinet
in that order (see the witness). -/
theorem name_mode_matches_sorted (fs : FS) (conf : Conf)
    (index : List IndexItem) (query : Query)
    (hmode : fs.isdir (osSplit query.string).1 = false)
    (hvalid : ∀ n, query.valid n = true)
    (hlen : ¬ ((pyLower (pyStrip query.string)).length : Int) < conf.min_length) :
    handle_query fs conf index query =
      .ok (specNameMode fs index (pyLower (pyStrip query.string))) := by
  unfold handle_query
  rw [if_neg hlen]
  unfold find_results
  rw [hmode]
  simp only [Bool.false_eq_true, if_false, Except.map]
  rw [nameTriples_eq_filterMap fs query.valid _ hvalid index 0]
  rw [filterMap_eq_filter_map]
  rfl

theorem name_mode_matches_sorted_witness :
    handle_query fsEmpty { min_length := 1, paths := [] } idxC1
        (liveQuery "a") =
      .ok
        [ { id := "file:///x/Abacus", text := "Abacus", subtext := "/x/Abacus"
          , completion := "/x/Abacus", actionUrl := "file:///x/Abacus" }
        , { id := "file:///x/Banana", text := "Banana", subtext := "/x/Banana"
          , completion := "/x/Banana", actionUrl := "file:///x/Banana" }
        , { id := "file:///x/Cabinet", text := "Cabinet", subtext := "/x/Cabinet"
          , completion := "/x/Cabinet", actionUrl := "file:///x/Cabinet" } ] := by
  have h := name_mode_matches_sorted fsEmpty { min_length := 1, paths := [] }
    idxC1 (liveQuery "a") (by decide) (fun _ => rfl) (by decide)
  rw [h]
  rfl

/-- C6 counterexample: in path mode the source sorts by (pos, title) just
as in name mode — for the directory /d with children discovered in order
b, a (both matching the empty tail at pos 0), the returned order is a
then b, not the discovery order b then a, so the title is used as a
tie-break key. -/
theorem path_mode_uses_title_tiebreak :
    handle_query fsC6 { min_length := 1, paths := [] } [] (liveQuery "/d/") =
        .ok
          [ { id := "file:///d/a", text := "a", subtext := "/d/a"
            , completion := "/d/a", actionUrl := "file:///d/a" }
          , { id := "file:///d/b", text := "b", subtext := "/d/b"
            , completion := "/d/b", actionUrl := "file:///d/b" } ] ∧
      ([ { id := "file:///d/a", text := "a", subtext := "/d/a"
         , completion := "/d/a", actionUrl := "file:///d/a" }
       , { id := "file:///d/b", text := "b", subtext := "/d/b"
         , completion := "/d/b", actionUrl := "file:///d/b" } ] :
          List AlbertItem) ≠
        [ { id := "file:///d/b", text := "b", subtext := "/d/b"
          , completion := "/d/b", actionUrl := "file:///d/b" }
        , { id := "file:///d/a", text := "a", subtext := "/d/a"
          , completion := "/d/a", actionUrl := "file:///d/a" } ] :=
  ⟨rfl, by decide⟩

/-- C6 amended: in path mode the surviving children are ranked by
(pos, title), identically to name mode — the title is a tie-break key in
both modes, and directory discovery order only decides between children
with equal pos and equal title (the sort is stable). -/
theorem path_mode_ranked_by_pos_title (fs : FS) (conf : Conf)
    (index : List IndexItem) (query : Query) (names : List String)
    (hmode : fs.isdir (osSplit query.string).1 = true)
    (hvalid : ∀ n, query.valid n = true)
    (hlen : ¬ ((pyLower (pyStrip query.string)).length : Int) < conf.min_length)
    (hscan : fs.scandir (dirHeadTail fs query.string).1 = .ok names) :
    handle_query fs conf index query =
      .ok (specPathMode fs (dirHeadTail fs query.string).1
        (pyLower (pyStrip (dirHeadTail fs query.string).2)) names) := by
  unfold handle_query
  rw [if_neg hlen]
  unfold find_results
  rw [hmode]
  simp only [if_true]
  unfold find_results_dir
  dsimp only
  rw [hscan]
  simp only [Except.map]
  rw [dirTriples_eq_filterMap fs query.valid _ _ hvalid names 0]
  rw [filterMap_eq_filter_map]
  rfl

theorem path_mode_ranked_by_pos_title_witness :
    handle_query fsC6 { min_length := 1, paths := [] } [] (liveQuery "/d/") =
      .ok (specPathMode fsC6 (dirHeadTail fsC6 "/d/").1
        (pyLower (pyStrip (dirHeadTail fsC6 "/d/").2)) ["b", "a"]) := by
  have h := path_mode_ranked_by_pos_title fsC6 { min_length := 1, paths := [] }
    [] (liveQuery "/d/") ["b", "a"] (by decide) (fun _ => rfl) (by decide)
    rfl
  exact h

/-- C9: with min_length 0 and a query that trims to the empty string (and
does not select path mode), every index entry matches at position 0 and
the whole index is returned, ordered by title ascending (stably sorted by
the Python string order on titles). -/
theorem empty_query_returns_whole_index (fs : FS) (conf : Conf)
    (index : List IndexItem) (query : Query)
    (hmin : conf.min_length = 0)
    (hq : pyStrip query.string = "")
    (hmode : fs.isdir (osSplit query.string).1 = false)
    (hvalid : ∀ n, query.valid n = true) :
    handle_query fs conf index query =
      .ok (List.insertionSort albertLE (index.map (to_albert_item fs))) := by
  have hq2 : pyLower (pyStrip query.string) = "" := by rw [hq]; rfl
  unfold handle_query
  rw [hq2, hmin]
  rw [if_neg (by decide)]
  unfold find_results
  rw [hmode]
  simp only [Bool.false_eq_true, if_false, Except.map]
  rw [hq2]
  rw [nameTriples_eq_filterMap fs query.valid _ hvalid index 0]
  have hall : index.filterMap
      (fun item => (pyFind (pyLower item.title) "").map
        (fun pos => (pos, item.title, to_albert_item fs item))) =
      index.map (fun item => ((0 : ℕ), item.title, to_albert_item fs item)) := by
    induction index with
    | nil => rfl
    | cons item rest ih =>
      rw [List.filterMap_cons, pyFind_empty, List.map_cons]
      rw [ih]
      rfl
  rw [hall]
  have hsort := insertionSort_map rankLE albertLE
    (fun t : ℕ × String × AlbertItem => t.2.2)
    (index.map (fun item => ((0 : ℕ), item.title, to_albert_item fs item)))
    (by
      intro x hx y hy
      rcases List.mem_map.mp hx with ⟨itx, _, rfl⟩
      rcases List.mem_map.mp hy with ⟨ity, _, rfl⟩
      rw [rankLE_iff]
      unfold albertLE albertLeB
      simp only [to_albert_item]
      constructor
      · rintro (h | ⟨_, h⟩)
        · exact absurd h (lt_irrefl 0)
        · simp [h]
      · intro h
        refine Or.inr ⟨by trivial, ?_⟩
        simpa using h)
  rw [hsort, List.map_map]
  rfl

theorem empty_query_returns_whole_index_witness :
    handle_query fsEmpty { min_length := 0, paths := [] } idxC1
      (liveQuery " ") =
      .ok (List.insertionSort albertLE (idxC1.map (to_albert_item fsEmpty))) := by
  have h := empty_query_returns_whole_index fsEmpty
    { min_length := 0, paths := [] } idxC1 (liveQuery " ")
    rfl (by decide) (by decide) (fun _ => rfl)
  exact h

/-! Association-list lemmas for the config store. -/

theorem lookup_cons_eq (k a : String) (v : JVal) (es : PyDict) (h : k = a) :
    List.lookup k ((a, v) :: es) = some v := by
  subst h
  simp [List.lookup_cons]

theorem lookup_cons_ne (k a : String) (v : JVal) (es : PyDict) (h : ¬ k = a) :
    List.lookup k ((a, v) :: es) = List.lookup k es := by
  have hb : (k == a) = false := by
    simpa using h
  simp [List.lookup_cons, hb]

/-- A key is found exactly when it is among the stored keys. -/
theorem lookup_isSome_iff_mem (k : String) :
    ∀ d : PyDict, (List.lookup k d).isSome = true ↔ k ∈ d.map Prod.fst
  | [] => by simp
  | (a, v) :: es => by
    by_cases h : k = a
    · rw [lookup_cons_eq k a v es h]
      simp [h]
    · rw [lookup_cons_ne k a v es h]
      simp [h, lookup_isSome_iff_mem k es]

theorem lookup_append_left (k : String) (v : JVal) :
    ∀ d e : PyDict, List.lookup k d = some v →
      List.lookup k (d ++ e) = some v
  | (a, w) :: es, e, h => by
    by_cases hk : k = a
    · rw [lookup_cons_eq k a w es hk] at h
      rw [List.cons_append, lookup_cons_eq k a w (es ++ e) hk]
      exact h
    · rw [lookup_cons_ne k a w es hk] at h
      rw [List.cons_append, lookup_cons_ne k a w (es ++ e) hk]
      exact lookup_append_left k v es e h

theorem lookup_append_none (k : String) :
    ∀ d e : PyDict, List.lookup k d = none →
      List.lookup k (d ++ e) = List.lookup k e
  | [], e, _ => rfl
  | (a, w) :: es, e, h => by
    by_cases hk : k = a
    · rw [lookup_cons_eq k a w es hk] at h
      exact absurd h (by simp)
    · rw [lookup_cons_ne k a w es hk] at h
      rw [List.cons_append, lookup_cons_ne k a w (es ++ e) hk]
      exact lookup_append_none k es e h

/-- Looking up in a permuted association list with distinct keys gives the
same answer. -/
theorem perm_lookup_eq (k : String) {d1 d2 : PyDict}
    (hperm : d1.Perm d2) (hnd : (d1.map Prod.fst).Nodup) :
    List.lookup k d1 = List.lookup k d2 := by
  induction hperm with
  | nil => rfl
  | cons x _ ih =>
    obtain ⟨a, v⟩ := x
    by_cases hk : k = a
    · rw [lookup_cons_eq k a v _ hk, lookup_cons_eq k a v _ hk]
    · rw [lookup_cons_ne k a v _ hk, lookup_cons_ne k a v _ hk]
      refine ih ?_
      simp only [List.map_cons, List.nodup_cons] at hnd
      exact hnd.2
  | swap x y l =>
    obtain ⟨a, v⟩ := x
    obtain ⟨b, w⟩ := y
    have hba : ¬ b = a := by
      simp only [List.map_cons, List.nodup_cons, List.mem_cons, not_or] at hnd
      exact hnd.1.1
    by_cases hk2 : k = b
    · have hk1 : ¬ k = a := fun h => hba (hk2.symm.trans h)
      rw [lookup_cons_eq k b w _ hk2, lookup_cons_ne k a v _ hk1,
        lookup_cons_eq k b w _ hk2]
    · rw [lookup_cons_ne k b w _ hk2]
      by_cases hk1 : k = a
      · rw [lookup_cons_eq k a v _ hk1, lookup_cons_eq k a v _ hk1]
      · rw [lookup_cons_ne k a v _ hk1, lookup_cons_ne k a v _ hk1,
          lookup_cons_ne k b w _ hk2]
  | trans h12 _ ih1 ih2 =>
    rw [ih1 hnd, ih2 (((h12.map Prod.fst).nodup_iff).mp hnd)]

/-- Keys of sortKeys are a permutation, so lookups agree when keys are
distinct. -/
theorem lookup_sortKeys (k : String) (d : PyDict)
    (hnd : (d.map Prod.fst).Nodup) :
    List.lookup k (sortKeys d) = List.lookup k d := by
  unfold sortKeys
  exact perm_lookup_eq k (List.perm_insertionSort _ d)
    (((List.perm_insertionSort _ d).map Prod.fst).nodup_iff.mpr hnd)

/-- setdefault puts the key there. -/
theorem lookup_setdefault_self (d : PyDict) (k : String) (v : JVal) :
    (List.lookup k (setdefault d k v)).isSome = true := by
  unfold setdefault
  by_cases hs : (List.lookup k d).isSome = true
  · rw [if_pos hs]
    exact hs
  · rw [if_neg hs]
    have hnone : List.lookup k d = none := by
      cases hl : List.lookup k d with
      | none => rfl
      | some w => rw [hl] at hs; exact absurd rfl hs
    rw [lookup_append_none k d [(k, v)] hnone, lookup_cons_eq k k v [] rfl]
    rfl

/-- setdefault keeps every present binding. -/
theorem lookup_setdefault_preserved (d : PyDict) (k k2 : String)
    (v v2 : JVal) (h : List.lookup k d = some v) :
    List.lookup k (setdefault d k2 v2) = some v := by
  unfold setdefault
  by_cases hs : (List.lookup k2 d).isSome = true
  · rw [if_pos hs]
    exact h
  · rw [if_neg hs]
    exact lookup_append_left k v d [(k2, v2)] h

/-- setdefault keeps found keys found. -/
theorem lookup_setdefault_isSome (d : PyDict) (k k2 : String) (v2 : JVal)
    (h : (List.lookup k d).isSome = true) :
    (List.lookup k (setdefault d k2 v2)).isSome = true := by
  cases hl : List.lookup k d with
  | none => rw [hl] at h; exact absurd h (by simp)
  | some v => rw [lookup_setdefault_preserved d k k2 v v2 hl]; rfl

/-- setdefault on a present key is the identity. -/
theorem setdefault_of_isSome (d : PyDict) (k : String) (v : JVal)
    (h : (List.lookup k d).isSome = true) : setdefault d k v = d := by
  unfold setdefault
  rw [if_pos h]

/-- setdefault keeps the keys distinct. -/
theorem setdefault_nodup (d : PyDict) (k : String) (v : JVal)
    (hnd : (d.map Prod.fst).Nodup) :
    ((setdefault d k v).map Prod.fst).Nodup := by
  unfold setdefault
  by_cases hs : (List.lookup k d).isSome = true
  · rw [if_pos hs]
    exact hnd
  · rw [if_neg hs]
    have hk : ¬ k ∈ d.map Prod.fst := fun hmem =>
      hs ((lookup_isSome_iff_mem k d).mpr hmem)
    rw [List.map_append]
    refine List.Nodup.append hnd (by simp) ?_
    intro a ha hb
    simp only [List.map_cons, List.map_nil, List.mem_singleton] at hb
    exact hk (hb ▸ ha)

/-- Dicts with identical lookups are Python-equal. -/
theorem pyDictEq_of_lookup_eq (d1 d2 : PyDict)
    (h : ∀ k, List.lookup k d1 = List.lookup k d2) :
    pyDictEq d1 d2 = true := by
  unfold pyDictEq
  rw [List.all_eq_true]
  intro k _
  rw [h k]
  exact optJValBeq_refl _

/-- Python dict equality is reflexive. -/
theorem pyDictEq_refl (d : PyDict) : pyDictEq d d = true :=
  pyDictEq_of_lookup_eq d d (fun _ => rfl)

/-- The merged config always carries the three keys. -/
theorem mergedConf_keys (home : String) (d : PyDict) :
    (List.lookup "min_length" (mergedConf home d)).isSome = true ∧
      (List.lookup "paths" (mergedConf home d)).isSome = true ∧
      (List.lookup "scan_interval" (mergedConf home d)).isSome = true := by
  unfold mergedConf
  exact ⟨lookup_setdefault_isSome _ _ _ _
      (lookup_setdefault_isSome _ _ _ _ (lookup_setdefault_self _ _ _)),
    lookup_setdefault_isSome _ _ _ _ (lookup_setdefault_self _ _ _),
    lookup_setdefault_self _ _ _⟩

/-- Merging is the identity on a config that already has the three keys. -/
theorem mergedConf_of_keys (home : String) (d : PyDict)
    (h1 : (List.lookup "min_length" d).isSome = true)
    (h2 : (List.lookup "paths" d).isSome = true)
    (h3 : (List.lookup "scan_interval" d).isSome = true) :
    mergedConf home d = d := by
  unfold mergedConf
  rw [setdefault_of_isSome d "min_length" _ h1,
    setdefault_of_isSome d "paths" _ h2,
    setdefault_of_isSome d "scan_interval" _ h3]

/-- Merging keeps keys distinct. -/
theorem mergedConf_nodup (home : String) (d : PyDict)
    (hnd : (d.map Prod.fst).Nodup) :
    ((mergedConf home d).map Prod.fst).Nodup :=
  setdefault_nodup _ _ _ (setdefault_nodup _ _ _ (setdefault_nodup _ _ _ hnd))

/-- Merging never alters a present binding. -/
theorem mergedConf_lookup_preserved (home : String) (d : PyDict)
    (k : String) (v : JVal) (h : List.lookup k d = some v) :
    List.lookup k (mergedConf home d) = some v :=
  lookup_setdefault_preserved _ _ _ _ _
    (lookup_setdefault_preserved _ _ _ _ _
      (lookup_setdefault_preserved _ _ _ _ _ h))

/-- C8: config loading is idempotent — loading twice without external
modification yields the same normalized config (Python dict equality:
missing keys filled with the defaults, present keys unaltered) and the
second load does not rewrite the file. -/
theorem read_conf_idempotent (home : String) (file : Option PyDict)
    (hnd : ∀ d, file = some d → (d.map Prod.fst).Nodup) :
    pyDictEq (read_conf home (read_conf home file).file).conf
        (read_conf home file).conf = true ∧
      (read_conf home (read_conf home file).file).wrote = false := by
  have hnd0 : ((file.getD []).map Prod.fst).Nodup := by
    cases file with
    | none => simp
    | some d => exact hnd d rfl
  by_cases h : pyDictEq (mergedConf home (file.getD [])) (file.getD []) = true
  · have hr1 : read_conf home file =
        { conf := mergedConf home (file.getD []), wrote := false
          , file := file } := by
      unfold read_conf
      rw [if_pos h]
    rw [hr1]
    dsimp only
    rw [hr1]
    dsimp only
    exact ⟨pyDictEq_refl _, rfl⟩
  · have hr1 : read_conf home file =
        { conf := mergedConf home (file.getD []), wrote := true
          , file := some (sortKeys (mergedConf home (file.getD []))) } := by
      unfold read_conf
      rw [if_neg h]
    rw [hr1]
    dsimp only
    have hmnd : ((mergedConf home (file.getD [])).map Prod.fst).Nodup :=
      mergedConf_nodup home _ hnd0
    have hlk : ∀ k, List.lookup k (sortKeys (mergedConf home (file.getD []))) =
        List.lookup k (mergedConf home (file.getD [])) :=
      fun k => lookup_sortKeys k _ hmnd
    have hkeys := mergedConf_keys home (file.getD [])
    have hm2 : mergedConf home (sortKeys (mergedConf home (file.getD []))) =
        sortKeys (mergedConf home (file.getD [])) :=
      mergedConf_of_keys home _
        (by rw [hlk]; exact hkeys.1)
        (by rw [hlk]; exact hkeys.2.1)
        (by rw [hlk]; exact hkeys.2.2)
    have hr2 : read_conf home
        (some (sortKeys (mergedConf home (file.getD [])))) =
        { conf := sortKeys (mergedConf home (file.getD [])), wrote := false
          , file := some (sortKeys (mergedConf home (file.getD []))) } := by
      unfold read_conf
      rw [Option.getD_some]
      dsimp only
      rw [hm2, if_pos (pyDictEq_refl _)]
    rw [hr2]
    dsimp only
    exact ⟨pyDictEq_of_lookup_eq _ _ hlk, rfl⟩

theorem read_conf_idempotent_witness :
    pyDictEq (read_conf "/home/u" (read_conf "/home/u" none).file).conf
        (read_conf "/home/u" none).conf = true ∧
      (read_conf "/home/u" (read_conf "/home/u" none).file).wrote = false :=
  read_conf_idempotent "/home/u" none (fun _ h => Option.noConfusion h)

/-- C10: config normalization is frame-preserving — every binding present
in the loaded file, the three standard keys and any unknown keys alike,
appears unchanged in the returned config and in the file contents after
the load; normalization only adds missing default keys. -/
theorem read_conf_preserves_existing_keys (home : String) (d : PyDict)
    (k : String) (v : JVal)
    (hnd : (d.map Prod.fst).Nodup)
    (hk : List.lookup k d = some v) :
    List.lookup k (read_conf home (some d)).conf = some v ∧
      ∃ d2, (read_conf home (some d)).file = some d2 ∧
        List.lookup k d2 = some v := by
  have hm : List.lookup k (mergedConf home d) = some v :=
    mergedConf_lookup_preserved home d k v hk
  unfold read_conf
  rw [Option.getD_some]
  by_cases h : pyDictEq (mergedConf home d) d = true
  · rw [if_pos h]
    exact ⟨hm, d, rfl, hk⟩
  · rw [if_neg h]
    refine ⟨hm, sortKeys (mergedConf home d), rfl, ?_⟩
    rw [lookup_sortKeys k _ (mergedConf_nodup home d hnd)]
    exact hm

/-! Lemmas about quoting and uri parsing, for the entry model claim. -/

theorem read_conf_preserves_existing_keys_witness :
    List.lookup "custom"
        (read_conf "/home/u" (some [("custom", JVal.jstr "x")])).conf =
        some (JVal.jstr "x") ∧
      ∃ d2, (read_conf "/home/u" (some [("custom", JVal.jstr "x")])).file =
          some d2 ∧ List.lookup "custom" d2 = some (JVal.jstr "x") :=
  read_conf_preserves_existing_keys "/home/u" [("custom", JVal.jstr "x")]
    "custom" (JVal.jstr "x") (by simp) rfl

end Filex
